import Mathlib

/-!
Verification of the BB84/QIBS protocol-simulation engine (the React `App`
component: `runInitialization` and `signAndSend`), shallowly embedded as pure
functions over an explicit random tape.  Every `Math.random()` call site of the
source is a field of `RandomTape`; the measurement and sifting loops are folds
over `List.range N` that mirror the source loops statement by statement.
-/

namespace QKDSim

/-- Measurement basis, as in `randBasis` returning Z or X. -/
inductive Basis where
  | Z
  | X
deriving DecidableEq

/-- Injected randomness: one field per `Math.random` call site of the source,
indexed by pulse number (or key-bit position).  `aliceBit i` models
`randBit()` in Alice's preparation loop, `noiseRoll i` the draw compared
against `noise`, `tamperRoll i` the draw compared against 0.5 in the tamper
branch, `keyBit j` the draws of the final-key loop. -/
structure RandomTape where
  aliceBit : ℕ → Bool
  aliceBasis : ℕ → Basis
  bobBasis : ℕ → Basis
  noiseRoll : ℕ → ℚ
  noiseBit : ℕ → Bool
  mismatchBit : ℕ → Bool
  tamperRoll : ℕ → ℚ
  keyBit : ℕ → Bool

/-- Raw measurement outcome of pulse `i` before the tamper layer: with
probability `noise` a fresh bit, else Alice's bit when bases match, else a
fresh bit (source lines: `if (Math.random() < noise) ... else if (bB ===
aliceBases[i]) ... else ...`). -/
def rawOutcome (noise : ℚ) (tape : RandomTape) (i : ℕ) : Bool :=
  if tape.noiseRoll i < noise then tape.noiseBit i
  else if tape.bobBasis i = tape.aliceBasis i then tape.aliceBit i
  else tape.mismatchBit i

/-- Whether the tamper layer flips pulse `i` (source: `if (tampering) { if
(Math.random() < 0.5) { y = 1 - y; tamperIntroducedCount++ } }`). -/
def tamperFlips (tampering : Bool) (tape : RandomTape) (i : ℕ) : Bool :=
  tampering && decide (tape.tamperRoll i < 1 / 2)

/-- Final measured bit of pulse `i`: the raw outcome, flipped when the tamper
layer flips. -/
def measuredBit (tampering : Bool) (noise : ℚ) (tape : RandomTape) (i : ℕ) : Bool :=
  if tamperFlips tampering tape i then !(rawOutcome noise tape i)
  else rawOutcome noise tape i

/-- One iteration of the measurement loop: computes `y`, applies the tamper
branch, pushes `y` onto `bobResults` and updates `tamperIntroducedCount`. -/
def measureStep (tampering : Bool) (noise : ℚ) (tape : RandomTape)
    (acc : List Bool × ℕ) (i : ℕ) : List Bool × ℕ :=
  let y := rawOutcome noise tape i
  if tampering then
    if tape.tamperRoll i < 1 / 2 then (acc.1 ++ [!y], acc.2 + 1)
    else (acc.1 ++ [y], acc.2)
  else (acc.1 ++ [y], acc.2)

/-- The measurement loop `for (let i = 0; i < N; i++) ...` of the source,
returning the `bobResults` list and `tamperIntroducedCount`. -/
def measureLoop (tampering : Bool) (noise : ℚ) (tape : RandomTape) (N : ℕ) :
    List Bool × ℕ :=
  (List.range N).foldl (measureStep tampering noise tape) ([], 0)

/-- The three parallel arrays built by the sifting loop (`keepIndices`,
`aBitsSifted`, `bBitsSifted`). -/
structure SiftState where
  indices : List ℕ
  aliceBits : List Bool
  bobBits : List Bool
deriving DecidableEq

/-- One iteration of the sifting loop: keep index `i` iff the bases match,
pushing the index, Alice's bit and Bob's measured bit. -/
def siftStep (aBasis bBasis : ℕ → Basis) (aBit bBit : ℕ → Bool)
    (acc : SiftState) (i : ℕ) : SiftState :=
  if aBasis i = bBasis i then
    { indices := acc.indices ++ [i]
      aliceBits := acc.aliceBits ++ [aBit i]
      bobBits := acc.bobBits ++ [bBit i] }
  else acc

/-- The sifting loop of the source (`for (let i = 0; i < N; i++) if
(aliceBases[i] === bobBases[i]) ...`). -/
def siftLoop (aBasis bBasis : ℕ → Basis) (aBit bBit : ℕ → Bool) (N : ℕ) :
    SiftState :=
  (List.range N).foldl (siftStep aBasis bBasis aBit bBit)
    { indices := [], aliceBits := [], bobBits := [] }

/-- An entry of `sampleReveal`: `{ index: i, alice: aliceBits[i], bob:
bobResults[i] }`. -/
structure SampleEntry where
  index : ℕ
  alice : Bool
  bob : Bool
deriving DecidableEq

/-- Mismatch count over the revealed sample (source: `sampleReveal.filter(s =>
s.alice !== s.bob).length`). -/
def sampleErrors (reveal : List SampleEntry) : ℕ :=
  (reveal.filter (fun s => s.alice != s.bob)).length

/-- The two textually distinct abort reasons of the tamper branch. -/
inductive AbortReason where
  | eavesdropDetected
  | channelCompromised
deriving DecidableEq

/-- Observable outcome of one `runInitialization` call.  `aborted` records
whether the run returned early from the tamper branch of QBER estimation;
`phiSent` whether the φ exchange ran; `qkdDone` the value of the completion
flag at the end of the call. -/
structure RunResult where
  aliceBits : List Bool
  aliceBases : List Basis
  bobBases : List Basis
  bobResults : List Bool
  tamperFlipCount : ℕ
  sifted : SiftState
  revealedSample : List SampleEntry
  qber : ℚ
  sharedKey : Option (List Bool)
  aborted : Bool
  abortReason : Option AbortReason
  phiSent : Bool
  qkdDone : Bool
deriving DecidableEq

/-- Clamping of the qubit-count parameter: `Math.max(1, parseInt(qkdN, 10) ||
5)` with a numeric input. -/
def runN (qkdN : ℕ) : ℕ := max 1 qkdN

/-- Steps 6 and 7 plus the φ branch of `runInitialization` (reached whenever
the run was not aborted): error correction overwrites Bob's sifted bits with
Alice's, the key is `max(2 * N, Math.max(0, aBitsSifted.length))` fresh random
bits, and φ/`qkdDone` depend on `tampering`. -/
def finishRun (tampering : Bool) (N : ℕ) (tape : RandomTape)
    (aliceBitsL : List Bool) (aliceBasesL bobBasesL : List Basis)
    (bobResultsL : List Bool) (flips : ℕ) (sift0 : SiftState)
    (reveal : List SampleEntry) (q : ℚ) : RunResult :=
  let correctedBobBits := sift0.aliceBits
  let sifted1 : SiftState :=
    { indices := sift0.indices
      aliceBits := sift0.aliceBits
      bobBits := correctedBobBits }
  let desiredLen := max (2 * N) (max 0 sift0.aliceBits.length)
  let simulatedKeyBits := (List.range desiredLen).map tape.keyBit
  if !tampering then
    { aliceBits := aliceBitsL, aliceBases := aliceBasesL, bobBases := bobBasesL
      bobResults := bobResultsL, tamperFlipCount := flips
      sifted := sifted1, revealedSample := reveal, qber := q
      sharedKey := some simulatedKeyBits, aborted := false, abortReason := none
      phiSent := true, qkdDone := true }
  else
    { aliceBits := aliceBitsL, aliceBases := aliceBasesL, bobBases := bobBasesL
      bobResults := bobResultsL, tamperFlipCount := flips
      sifted := sifted1, revealedSample := reveal, qber := q
      sharedKey := some simulatedKeyBits, aborted := false, abortReason := none
      phiSent := false, qkdDone := false }

/-- The sifted state computed by step 4 of the run: the sifting loop applied
to the generated bases, Alice's bits and Bob's measured bits. -/
def siftOf (tampering : Bool) (noise : ℚ) (qkdN : ℕ) (tape : RandomTape) :
    SiftState :=
  siftLoop tape.aliceBasis tape.bobBasis tape.aliceBit
    (measuredBit tampering noise tape) (runN qkdN)

/-- The revealed sample of step 5: `keepIndices.slice(0, sampleSize)` mapped
to `{ index: i, alice: aliceBits[i], bob: bobResults[i] }`. -/
def sampleRevealOf (tampering : Bool) (noise : ℚ) (qkdN sampleSize : ℕ)
    (tape : RandomTape) : List SampleEntry :=
  ((siftOf tampering noise qkdN tape).indices.take sampleSize).map
    (fun i => { index := i, alice := tape.aliceBit i
                bob := measuredBit tampering noise tape i : SampleEntry })

/-- The QBER value the run stores: `errors / sampleReveal.length` inside the
nonempty-sample branch (where the ternary always divides), `0` in the
empty-sample branch. -/
def qberOf (tampering : Bool) (noise : ℚ) (qkdN sampleSize : ℕ)
    (tape : RandomTape) : ℚ :=
  let sampleReveal := sampleRevealOf tampering noise qkdN sampleSize tape
  if 0 < sampleReveal.length then
    (sampleErrors sampleReveal : ℚ) / (sampleReveal.length : ℚ)
  else 0

/-- The body of `runInitialization` after the re-entrancy guard, as a pure
function of the locked parameters and the random tape.  `bobResults[i]` reads
of the source are rendered through `measuredBit` (the closed form of the
measurement loop, see `measureLoop_eq`). -/
def runInit (tampering : Bool) (noise : ℚ) (qkdN sampleSize : ℕ)
    (tape : RandomTape) : RunResult :=
  let N := runN qkdN
  let aliceBitsL := (List.range N).map tape.aliceBit
  let aliceBasesL := (List.range N).map tape.aliceBasis
  let bobBasesL := (List.range N).map tape.bobBasis
  let m := measureLoop tampering noise tape N
  let sift0 := siftOf tampering noise qkdN tape
  let sampleReveal := sampleRevealOf tampering noise qkdN sampleSize tape
  if 0 < sampleReveal.length then
    let q := qberOf tampering noise qkdN sampleSize tape
    if tampering then
      { aliceBits := aliceBitsL, aliceBases := aliceBasesL
        bobBases := bobBasesL, bobResults := m.1, tamperFlipCount := m.2
        sifted := sift0, revealedSample := sampleReveal, qber := q
        sharedKey := none, aborted := true
        abortReason := some (if q ≤ 45 / 100 then AbortReason.eavesdropDetected
          else AbortReason.channelCompromised)
        phiSent := false, qkdDone := false }
    else
      finishRun tampering N tape aliceBitsL aliceBasesL bobBasesL m.1 m.2
        sift0 sampleReveal q
  else
    finishRun tampering N tape aliceBitsL aliceBasesL bobBasesL m.1 m.2
      sift0 sampleReveal 0

/-- The spec's `SignatureSession` view of the two verification branches of
`signAndSend`: the tamper branch is `verified = false`, `tamperDetected =
true`; the normal branch `verified = true`, `tamperDetected = false`. -/
structure SignSession where
  preimage : ℕ
  verified : Bool
  tamperDetected : Bool
deriving DecidableEq

/-- Engine state: the React state variables read or written by the run and
signature entry points. -/
structure EngineState where
  running : Bool
  qkdRunning : Bool
  qkdDone : Bool
  signRunning : Bool
  tampering : Bool
  noiseLocked : Bool
  sharedKey : Option (List Bool)
  qber : Option ℚ
  sifted : SiftState
  revealedSample : List SampleEntry
  signSession : Option SignSession
deriving DecidableEq

/-- The integrity-violation log line emitted by the tamper branch of
`signAndSend` (apostrophes elided). -/
def integrityViolationMsg : String :=
  "Tampering detected in QIBS: Bobs computed P != received P - message integrity compromised"

/-- The acceptance log line of the normal branch of `signAndSend`. -/
def acceptedMsg : String :=
  "Bob computed P matches received P - message accepted (simulated)"

/-- The `runInitialization` entry point: the guard `if (qkdRunning) return;`
followed by the run body, whose observable outcome is written back into the
engine state (a new run discards any previous signature session). -/
def startRun (s : EngineState) (noise : ℚ) (qkdN sampleSize : ℕ)
    (tape : RandomTape) : EngineState :=
  if s.qkdRunning then s
  else
    let r := runInit s.tampering noise qkdN sampleSize tape
    { s with qkdRunning := false, qkdDone := r.qkdDone
             sharedKey := r.sharedKey, qber := some r.qber
             sifted := r.sifted, revealedSample := r.revealedSample
             noiseLocked := false, signSession := none }

/-- The `signAndSend` entry point: the guard `if (!qkdDone || qkdRunning ||
signRunning) return;`, then the verification branch on `tampering`.  Returns
the new engine state and the list of log events the call emits about the
verification outcome. -/
def signAndSend (s : EngineState) (preimage : ℕ) : EngineState × List String :=
  if !s.qkdDone || s.qkdRunning || s.signRunning then (s, [])
  else if s.tampering then
    ({ s with signRunning := false
              signSession := some { preimage := preimage, verified := false
                                    tamperDetected := true } },
     [integrityViolationMsg])
  else
    ({ s with signRunning := false
              signSession := some { preimage := preimage, verified := true
                                    tamperDetected := false } },
     [acceptedMsg])

/-!  Closed forms of the two source loops.  -/

/-- Closed form of the measurement loop from an arbitrary accumulator: it
appends the per-pulse measured bits in index order and adds one to the counter
for exactly the pulses the tamper layer flips. -/
theorem measureFoldl_eq (tampering : Bool) (noise : ℚ) (tape : RandomTape)
    (N : ℕ) (acc : List Bool × ℕ) :
    (List.range N).foldl (measureStep tampering noise tape) acc
      = (acc.1 ++ (List.range N).map (measuredBit tampering noise tape),
         acc.2 + ((List.range N).filter (tamperFlips tampering tape)).length) := by
  induction N generalizing acc with
  | zero => simp
  | succ n ih =>
    rw [List.range_succ, List.foldl_append, ih]
    simp only [List.foldl_cons, List.foldl_nil, List.map_append,
      List.filter_append, List.length_append]
    by_cases ht : tampering
    · by_cases hr : tape.tamperRoll n < 1 / 2
      · simp [measureStep, measuredBit, tamperFlips, ht, hr, List.append_assoc,
          Nat.add_assoc, -one_div]
      · simp [measureStep, measuredBit, tamperFlips, ht, hr, List.append_assoc,
          -one_div]
    · simp [measureStep, measuredBit, tamperFlips, ht, List.append_assoc]

/-- The measurement loop produces the list of per-pulse measured bits together
with the number of tamper flips. -/
theorem measureLoop_eq (tampering : Bool) (noise : ℚ) (tape : RandomTape)
    (N : ℕ) :
    measureLoop tampering noise tape N
      = ((List.range N).map (measuredBit tampering noise tape),
         ((List.range N).filter (tamperFlips tampering tape)).length) := by
  rw [measureLoop, measureFoldl_eq]
  simp

/-- Closed form of the sifting loop from an arbitrary accumulator. -/
theorem siftFoldl_eq (aBasis bBasis : ℕ → Basis) (aBit bBit : ℕ → Bool)
    (N : ℕ) (acc : SiftState) :
    (List.range N).foldl (siftStep aBasis bBasis aBit bBit) acc
      = { indices := acc.indices
            ++ (List.range N).filter (fun i => decide (aBasis i = bBasis i))
          aliceBits := acc.aliceBits
            ++ ((List.range N).filter
                (fun i => decide (aBasis i = bBasis i))).map aBit
          bobBits := acc.bobBits
            ++ ((List.range N).filter
                (fun i => decide (aBasis i = bBasis i))).map bBit } := by
  induction N generalizing acc with
  | zero => simp
  | succ n ih =>
    rw [List.range_succ, List.foldl_append, ih]
    simp only [List.foldl_cons, List.foldl_nil, List.map_append,
      List.filter_append]
    by_cases hb : aBasis n = bBasis n
    · simp [siftStep, hb, List.append_assoc]
    · simp [siftStep, hb]

/-- The sifting loop keeps, in index order, exactly the indices below `N`
whose bases match, carrying Alice's bit and Bob's bit at each kept index. -/
theorem siftLoop_eq (aBasis bBasis : ℕ → Basis) (aBit bBit : ℕ → Bool)
    (N : ℕ) :
    siftLoop aBasis bBasis aBit bBit N
      = { indices := (List.range N).filter
            (fun i => decide (aBasis i = bBasis i))
          aliceBits := ((List.range N).filter
            (fun i => decide (aBasis i = bBasis i))).map aBit
          bobBits := ((List.range N).filter
            (fun i => decide (aBasis i = bBasis i))).map bBit } := by
  rw [siftLoop, siftFoldl_eq]
  simp

/-!  Concrete tapes used by witnesses and counterexamples.  -/

/-- A tape on which Alice and Bob always pick basis Z, every generated bit is
0, the noise roll is 1 (no noise corruption for any noiseLevel at most 1) and
the tamper roll is 1 (no tamper flip). -/
def tapeA : RandomTape :=
  { aliceBit := fun _ => false
    aliceBasis := fun _ => Basis.Z
    bobBasis := fun _ => Basis.Z
    noiseRoll := fun _ => 1
    noiseBit := fun _ => false
    mismatchBit := fun _ => false
    tamperRoll := fun _ => 1
    keyBit := fun _ => false }

/-- Like `tapeA` but the noise roll is 0 and the noise-drawn bit is 1, so with
noiseLevel 1 every measured bit is corrupted to 1 while Alice's bit is 0. -/
def tapeB : RandomTape :=
  { aliceBit := fun _ => false
    aliceBasis := fun _ => Basis.Z
    bobBasis := fun _ => Basis.Z
    noiseRoll := fun _ => 0
    noiseBit := fun _ => true
    mismatchBit := fun _ => false
    tamperRoll := fun _ => 1
    keyBit := fun _ => false }

/-!  Projection lemmas: every branch of `runInit` stores the same revealed
sample, QBER value, and (when it does not abort) the same corrected sifted
state and key.  -/

/-- All branches store the sample of `sampleRevealOf`. -/
theorem runInit_revealedSample (t : Bool) (n : ℚ) (qn ss : ℕ)
    (tape : RandomTape) :
    (runInit t n qn ss tape).revealedSample = sampleRevealOf t n qn ss tape := by
  simp only [runInit, finishRun]
  split_ifs <;> rfl

/-- All branches store the QBER value of `qberOf`. -/
theorem runInit_qber (t : Bool) (n : ℚ) (qn ss : ℕ) (tape : RandomTape) :
    (runInit t n qn ss tape).qber = qberOf t n qn ss tape := by
  simp only [runInit, finishRun, qberOf]
  split_ifs <;> rfl

/-- The run aborts exactly when tampering is active and the revealed sample is
nonempty. -/
theorem runInit_aborted_iff (t : Bool) (n : ℚ) (qn ss : ℕ)
    (tape : RandomTape) :
    (runInit t n qn ss tape).aborted = true
      ↔ (t = true ∧ (sampleRevealOf t n qn ss tape).length ≠ 0) := by
  cases t with
  | false =>
    simp only [runInit, finishRun]
    split_ifs <;> simp_all
  | true =>
    simp only [runInit, finishRun]
    split_ifs <;> simp_all [List.length_pos]

/-- On the abort branch the key stays `null` and the sifted state is the
uncorrected `siftOf`. -/
theorem runInit_abort_state (t : Bool) (n : ℚ) (qn ss : ℕ) (tape : RandomTape)
    (h : (runInit t n qn ss tape).aborted = true) :
    (runInit t n qn ss tape).sharedKey = none
      ∧ (runInit t n qn ss tape).sifted = siftOf t n qn tape
      ∧ (runInit t n qn ss tape).qkdDone = false
      ∧ (runInit t n qn ss tape).phiSent = false := by
  revert h
  simp only [runInit, finishRun]
  split_ifs <;> simp_all

/-- On the non-abort branches the key is `max(2N, len(sifted))` fresh bits
from the key tape and the sifted state is the corrected one. -/
theorem runInit_finish_state (t : Bool) (n : ℚ) (qn ss : ℕ)
    (tape : RandomTape)
    (h : (runInit t n qn ss tape).aborted = false) :
    (runInit t n qn ss tape).sharedKey
        = some ((List.range (max (2 * runN qn)
            (max 0 (siftOf t n qn tape).aliceBits.length))).map tape.keyBit)
      ∧ (runInit t n qn ss tape).sifted
          = { indices := (siftOf t n qn tape).indices
              aliceBits := (siftOf t n qn tape).aliceBits
              bobBits := (siftOf t n qn tape).aliceBits }
      ∧ (runInit t n qn ss tape).qkdDone = !t
      ∧ (runInit t n qn ss tape).phiSent = !t := by
  revert h
  simp only [runInit, finishRun]
  split_ifs <;> simp_all

/-!  Claim theorems.  -/

/-- C2: for every N and all generated sequences, the sifting step keeps
exactly the indices whose bases match, in increasing index order, and each
kept pair carries Alice's bit and Bob's measured bit at that index; sifting is
a pure total function (no randomness, no failure mode). -/
theorem sifting_keeps_exactly_matching_bases (aBasis bBasis : ℕ → Basis)
    (aBit bBit : ℕ → Bool) (N : ℕ) :
    (∀ i, i ∈ (siftLoop aBasis bBasis aBit bBit N).indices
        ↔ (i < N ∧ aBasis i = bBasis i))
    ∧ (siftLoop aBasis bBasis aBit bBit N).indices.Sorted (· < ·)
    ∧ (siftLoop aBasis bBasis aBit bBit N).aliceBits
        = (siftLoop aBasis bBasis aBit bBit N).indices.map aBit
    ∧ (siftLoop aBasis bBasis aBit bBit N).bobBits
        = (siftLoop aBasis bBasis aBit bBit N).indices.map bBit := by
  rw [siftLoop_eq]
  refine ⟨fun i => ?_, (List.sorted_lt_range N).filter _, rfl, rfl⟩
  simp [List.mem_filter, List.mem_range]

/-- C4: the measurement loop realizes the layered per-pulse model over the
injected draws — noise layer (fresh bit with probability noiseLevel, else
Alice's bit on matching bases, else fresh bit), then, only if tampering, a
0.5-probability flip, with the tamper counter counting exactly the flips; with
tampering off the outcomes are the raw layer and the counter stays 0. -/
theorem measurement_layered_model (tampering : Bool) (noise : ℚ)
    (tape : RandomTape) (N : ℕ) :
    (measureLoop tampering noise tape N).1
        = (List.range N).map (fun i =>
            let raw := if tape.noiseRoll i < noise then tape.noiseBit i
              else if tape.bobBasis i = tape.aliceBasis i then tape.aliceBit i
              else tape.mismatchBit i
            if tampering && decide (tape.tamperRoll i < 1 / 2) then !raw
            else raw)
    ∧ (measureLoop tampering noise tape N).2
        = ((List.range N).filter
            (fun i => tampering && decide (tape.tamperRoll i < 1 / 2))).length
    ∧ (measureLoop false noise tape N).1
        = (List.range N).map (rawOutcome noise tape)
    ∧ (measureLoop false noise tape N).2 = 0 := by
  rw [measureLoop_eq, measureLoop_eq]
  refine ⟨rfl, rfl, ?_, ?_⟩
  · simp [measuredBit, tamperFlips]
  · simp [tamperFlips]

/-- C6: the revealed QBER sample is exactly the first
min(sampleSize, len(SiftedPairs)) sifted pairs, taken deterministically in
increasing index order, each entry carrying that index's Alice bit and Bob
measured bit. -/
theorem qber_sample_is_deterministic_first_pairs (t : Bool) (n : ℚ)
    (qn ss : ℕ) (tape : RandomTape) :
    (runInit t n qn ss tape).revealedSample.length
        = min ss (siftOf t n qn tape).indices.length
    ∧ (runInit t n qn ss tape).revealedSample
        = (((List.range (runN qn)).filter
            (fun i => decide (tape.aliceBasis i = tape.bobBasis i))).take
            ss).map
          (fun i => { index := i, alice := tape.aliceBit i
                      bob := measuredBit t n tape i : SampleEntry })
    ∧ ((runInit t n qn ss tape).revealedSample.map
        (fun s => s.index)).Sorted (· < ·) := by
  rw [runInit_revealedSample]
  refine ⟨by simp [sampleRevealOf], by simp [sampleRevealOf, siftOf, siftLoop_eq], ?_⟩
  have hidx : (sampleRevealOf t n qn ss tape).map (fun s => s.index)
      = ((List.range (runN qn)).filter
          (fun i => decide (tape.aliceBasis i = tape.bobBasis i))).take ss := by
    simp only [sampleRevealOf, siftOf, siftLoop_eq, List.map_take,
      List.map_map]
    have hcomp : ((fun s : SampleEntry => s.index)
        ∘ fun i => ({ index := i, alice := tape.aliceBit i
                      bob := measuredBit t n tape i } : SampleEntry))
        = fun i => i := rfl
    rw [hcomp, List.map_id']
  rw [hidx]
  exact List.Pairwise.sublist (List.take_sublist _ _)
    ((List.sorted_lt_range _).filter _)

/-- C5 counterexample: with sampleSize 2 but a single sifted pair holding one
mismatch, the stored QBER is 1 (mismatches over the revealed sample), not
mismatches divided by sampleSize, which would be 1/2. -/
theorem qber_divisor_counterexample :
    sampleErrors (runInit false 1 1 2 tapeB).revealedSample = 1
    ∧ (runInit false 1 1 2 tapeB).revealedSample.length = 1
    ∧ (runInit false 1 1 2 tapeB).qber = 1
    ∧ (runInit false 1 1 2 tapeB).qber
        ≠ (sampleErrors (runInit false 1 1 2 tapeB).revealedSample : ℚ) / 2 := by
  have he : sampleErrors (runInit false 1 1 2 tapeB).revealedSample = 1 := by
    decide
  have hl : (runInit false 1 1 2 tapeB).revealedSample.length = 1 := by decide
  have hq : (runInit false 1 1 2 tapeB).qber = 1 := by
    rw [runInit_qber, qberOf]
    rw [← runInit_revealedSample] at *
    simp [he, hl]
  refine ⟨he, hl, hq, ?_⟩
  rw [hq, he]
  norm_num

/-- C5 amended: the QBER estimate equals the number of Alice/Bob mismatches
over the revealed sample divided by the revealed-sample length
(min(sampleSize, len(SiftedPairs))), and equals 0 when the revealed sample is
empty — in particular when sampleSize is 0. -/
theorem qber_mismatches_over_revealed_sample (t : Bool) (n : ℚ) (qn ss : ℕ)
    (tape : RandomTape) :
    (runInit t n qn ss tape).qber
      = (if (runInit t n qn ss tape).revealedSample.length = 0 then 0
         else (sampleErrors (runInit t n qn ss tape).revealedSample : ℚ)
            / ((runInit t n qn ss tape).revealedSample.length : ℚ)) := by
  rw [runInit_qber, runInit_revealedSample, qberOf]
  rcases Nat.eq_zero_or_pos (sampleRevealOf t n qn ss tape).length with h | h
  · simp [h]
  · simp [h, Nat.pos_iff_ne_zero.mp h]

/-- C1 counterexample: a run with tampering active but sampleSize 0 (so the
revealed sample is empty) completes without aborting and sets a non-null
shared key, contradicting the claim's "regardless of the sample size or
sifted-set size". -/
theorem tamper_empty_sample_no_abort_cex :
    (runInit true 0 1 0 tapeA).aborted = false
    ∧ (runInit true 0 1 0 tapeA).sharedKey ≠ none := by
  exact ⟨by decide, by decide⟩

/-- C1 amended: if tampering is active at QBER estimation time and the
revealed sample is nonempty, the run ends aborted and the shared key stays
null, regardless of the numeric sample QBER. -/
theorem tamper_abort_requires_nonempty_sample (n : ℚ) (qn ss : ℕ)
    (tape : RandomTape)
    (hs : (runInit true n qn ss tape).revealedSample ≠ []) :
    (runInit true n qn ss tape).aborted = true
    ∧ (runInit true n qn ss tape).sharedKey = none := by
  have hlen : (sampleRevealOf true n qn ss tape).length ≠ 0 := by
    rw [← runInit_revealedSample]
    simpa [List.length_eq_zero] using hs
  have hab : (runInit true n qn ss tape).aborted = true :=
    (runInit_aborted_iff true n qn ss tape).mpr ⟨rfl, hlen⟩
  exact ⟨hab, (runInit_abort_state true n qn ss tape hab).1⟩

/-- C1 amended, witness: a concrete tampered run with one revealed pair is
aborted with a null key. -/
theorem tamper_abort_requires_nonempty_sample_witness :
    (runInit true 0 1 1 tapeA).revealedSample ≠ []
    ∧ (runInit true 0 1 1 tapeA).aborted = true
    ∧ (runInit true 0 1 1 tapeA).sharedKey = none := by
  have hs : (runInit true 0 1 1 tapeA).revealedSample ≠ [] := by decide
  exact ⟨hs, (tamper_abort_requires_nonempty_sample 0 1 1 tapeA hs).1,
    (tamper_abort_requires_nonempty_sample 0 1 1 tapeA hs).2⟩

/-- C3: whenever the shared key is non-null it is exactly
max(2·N, len(SiftedPairs)) bits read fresh from the key tape — not derived
from the sifted or corrected bits — hence its length is at least 2·N. -/
theorem derived_key_fresh_bits_length (t : Bool) (n : ℚ) (qn ss : ℕ)
    (tape : RandomTape) (k : List Bool)
    (hk : (runInit t n qn ss tape).sharedKey = some k) :
    k = (List.range (max (2 * runN qn)
          (siftOf t n qn tape).aliceBits.length)).map tape.keyBit
    ∧ k.length = max (2 * runN qn) (siftOf t n qn tape).aliceBits.length
    ∧ 2 * runN qn ≤ k.length := by
  have hab : (runInit t n qn ss tape).aborted = false := by
    by_contra hcontra
    have h1 : (runInit t n qn ss tape).aborted = true := by
      simpa using hcontra
    have h2 := (runInit_abort_state t n qn ss tape h1).1
    rw [h2] at hk
    exact Option.noConfusion hk
  have hfin := (runInit_finish_state t n qn ss tape hab).1
  rw [hfin] at hk
  have hk2 := Option.some.inj hk
  subst hk2
  refine ⟨by simp, by simp, by simp⟩

/-- C3 witness: a concrete completed run with N = 1 and one sifted pair has
the two-bit key read from the key tape. -/
theorem derived_key_fresh_bits_length_witness :
    (runInit false 0 1 0 tapeA).sharedKey = some [false, false]
    ∧ [false, false]
        = (List.range (max (2 * runN 1)
            (siftOf false 0 1 tapeA).aliceBits.length)).map tapeA.keyBit
    ∧ 2 * runN 1 ≤ [false, false].length := by
  have hk : (runInit false 0 1 0 tapeA).sharedKey = some [false, false] := by
    decide
  have h := derived_key_fresh_bits_length false 0 1 0 tapeA [false, false] hk
  exact ⟨hk, h.1, h.2.2⟩

/-- C7: in every non-aborted run, error correction overwrites each sifted
pair's Bob bit with its Alice bit and leaves the indices, the Alice bits and
the length of the sifted sequence unchanged from the sifting step. -/
theorem error_correction_overwrites_bob_bits (t : Bool) (n : ℚ) (qn ss : ℕ)
    (tape : RandomTape)
    (h : (runInit t n qn ss tape).aborted = false) :
    (runInit t n qn ss tape).sifted.bobBits
        = (runInit t n qn ss tape).sifted.aliceBits
    ∧ (runInit t n qn ss tape).sifted.indices = (siftOf t n qn tape).indices
    ∧ (runInit t n qn ss tape).sifted.aliceBits
        = (siftOf t n qn tape).aliceBits
    ∧ (runInit t n qn ss tape).sifted.bobBits.length
        = (siftOf t n qn tape).bobBits.length := by
  have hfin := (runInit_finish_state t n qn ss tape h).2.1
  rw [hfin]
  refine ⟨rfl, rfl, rfl, ?_⟩
  simp [siftOf, siftLoop_eq]

/-- C7 witness: a concrete non-aborted run in which Bob's sifted bits were
overwritten by Alice's. -/
theorem error_correction_overwrites_bob_bits_witness :
    (runInit false 0 1 1 tapeA).aborted = false
    ∧ (runInit false 0 1 1 tapeA).sifted.bobBits
        = (runInit false 0 1 1 tapeA).sifted.aliceBits
    ∧ (runInit false 0 1 1 tapeA).sifted.indices
        = (siftOf false 0 1 tapeA).indices := by
  have h : (runInit false 0 1 1 tapeA).aborted = false := by decide
  exact ⟨h, (error_correction_overwrites_bob_bits false 0 1 1 tapeA h).1,
    (error_correction_overwrites_bob_bits false 0 1 1 tapeA h).2.1⟩

/-- C10: with tampering active but an empty revealed sample (sampleSize 0 or
no sifted pairs), the run does not abort: it runs error correction, sets a
non-null key of max(2·N, len(SiftedPairs)) fresh bits, withholds φ, and ends
with qkdDone = false. -/
theorem tamper_empty_sample_completes_without_abort (n : ℚ) (qn ss : ℕ)
    (tape : RandomTape)
    (hs : ss = 0 ∨ (siftOf true n qn tape).indices = []) :
    (runInit true n qn ss tape).aborted = false
    ∧ (runInit true n qn ss tape).sharedKey
        = some ((List.range (max (2 * runN qn)
            (siftOf true n qn tape).aliceBits.length)).map tape.keyBit)
    ∧ (∀ k, (runInit true n qn ss tape).sharedKey = some k →
        k.length = max (2 * runN qn) (siftOf true n qn tape).aliceBits.length)
    ∧ (runInit true n qn ss tape).sifted.bobBits
        = (runInit true n qn ss tape).sifted.aliceBits
    ∧ (runInit true n qn ss tape).phiSent = false
    ∧ (runInit true n qn ss tape).qkdDone = false := by
  have hlen : (sampleRevealOf true n qn ss tape).length = 0 := by
    rcases hs with h | h
    · simp [sampleRevealOf, h]
    · simp [sampleRevealOf, h]
  have hnab : ¬ (runInit true n qn ss tape).aborted = true := by
    intro hab
    exact ((runInit_aborted_iff true n qn ss tape).mp hab).2 hlen
  have hab : (runInit true n qn ss tape).aborted = false := by
    simpa using hnab
  have hfin := runInit_finish_state true n qn ss tape hab
  refine ⟨hab, by simpa using hfin.1, ?_, by rw [hfin.2.1], by simpa using hfin.2.2.2,
    by simpa using hfin.2.2.1⟩
  intro k hk
  rw [hfin.1] at hk
  have hk2 := Option.some.inj hk
  subst hk2
  simp

/-- C10 witness: a concrete tampered run with sampleSize 0 completes with a
two-bit key, no φ, and qkdDone false. -/
theorem tamper_empty_sample_completes_without_abort_witness :
    (runInit true 0 1 0 tapeA).aborted = false
    ∧ (runInit true 0 1 0 tapeA).sharedKey
        = some ((List.range (max (2 * runN 1)
            (siftOf true 0 1 tapeA).aliceBits.length)).map tapeA.keyBit)
    ∧ (runInit true 0 1 0 tapeA).qkdDone = false := by
  have h := tamper_empty_sample_completes_without_abort 0 1 0 tapeA (Or.inl rfl)
  exact ⟨h.1, h.2.1, h.2.2.2.2.2⟩

/-- Engine state after a completed run: idle, `qkdDone` set, no tampering. -/
def engineDone : EngineState :=
  { running := true, qkdRunning := false, qkdDone := true
    signRunning := false, tampering := false, noiseLocked := false
    sharedKey := some [false, false], qber := some 0
    sifted := { indices := [], aliceBits := [], bobBits := [] }
    revealedSample := [], signSession := none }

/-- Engine state with a run in flight. -/
def engineBusy : EngineState :=
  { engineDone with qkdRunning := true, qkdDone := false }

/-- C8: when `signAndSend` passes its guard, the verification outcome is a
function of the tamper flag alone: tampering gives verified = false with
tamperDetected = true and the integrity-violation event among the emitted
logs; no tampering gives verified = true; any two states that agree on the
flag produce the same outcome, whatever their other fields or preimage. -/
theorem sign_verification_gated_by_tamper_flag (s : EngineState)
    (preimage : ℕ) (hdone : s.qkdDone = true) (hrun : s.qkdRunning = false)
    (hsign : s.signRunning = false) :
    (signAndSend s preimage).1.signSession
        = some { preimage := preimage, verified := !s.tampering
                 tamperDetected := s.tampering }
    ∧ (s.tampering = true →
        integrityViolationMsg ∈ (signAndSend s preimage).2)
    ∧ (∀ s2 : EngineState, ∀ p2 : ℕ, s2.qkdDone = true →
        s2.qkdRunning = false → s2.signRunning = false →
        s2.tampering = s.tampering →
        (signAndSend s2 p2).1.signSession.map
            (fun ses => (ses.verified, ses.tamperDetected))
          = (signAndSend s preimage).1.signSession.map
            (fun ses => (ses.verified, ses.tamperDetected))) := by
  refine ⟨?_, ?_, ?_⟩
  · cases htamp : s.tampering <;>
      simp [signAndSend, hdone, hrun, hsign, htamp]
  · intro htamp
    simp [signAndSend, hdone, hrun, hsign, htamp]
  · intro s2 p2 hdone2 hrun2 hsign2 htamp2
    cases htamp : s.tampering <;>
      rw [htamp] at htamp2 <;>
      simp [signAndSend, hdone, hrun, hsign, hdone2, hrun2, hsign2, htamp,
        htamp2]

/-- C8 witness: on the concrete completed state with tampering off, the
session verifies. -/
theorem sign_verification_gated_by_tamper_flag_witness :
    (signAndSend engineDone 7).1.signSession
      = some { preimage := 7, verified := true, tamperDetected := false } := by
  have h := sign_verification_gated_by_tamper_flag engineDone 7 rfl rfl rfl
  simpa [engineDone] using h.1

/-- C9: invalid-state calls are rejected as no-ops: starting a run while one
is active returns the state unchanged, and `signAndSend` returns the state
unchanged and emits nothing unless `qkdDone` holds with no run and no
signature simulation in flight. -/
theorem invalid_state_calls_are_noops (s : EngineState) (n : ℚ) (qn ss : ℕ)
    (tape : RandomTape) (preimage : ℕ) :
    (s.qkdRunning = true → startRun s n qn ss tape = s)
    ∧ ((s.qkdDone = false ∨ s.qkdRunning = true ∨ s.signRunning = true) →
        signAndSend s preimage = (s, [])) := by
  constructor
  · intro h
    simp [startRun, h]
  · intro h
    rcases h with h | h | h <;> simp [signAndSend, h]

/-- C9 witness: on a state with a run in flight, both calls are no-ops. -/
theorem invalid_state_calls_are_noops_witness :
    startRun engineBusy 0 1 1 tapeA = engineBusy
    ∧ signAndSend engineBusy 3 = (engineBusy, []) := by
  have h := invalid_state_calls_are_noops engineBusy 0 1 1 tapeA 3
  exact ⟨h.1 rfl, h.2 (Or.inr (Or.inl rfl))⟩

end QKDSim
